import Mathlib

/-!
Verification of the NIH Reporter search tool (nih_reporter_search.py).

The development shallowly embeds the pure core of the script:
* `process_funding_data` — normalization of raw API project records into
  canonical per-project records plus accumulated per-person totals;
* the name-cleaning transform of `search_names_from_yaml`;
* `_sort_results_by_last_name` — stable sort of the results mapping;
* the metric loops of `create_summary_csv` — two-format date parsing,
  the most-recent-year metric and the currently-active funding metric;
* the control flow of `search_names_from_yaml` and `main` around input
  errors and output-file writing.

Python floats are modelled as rationals (`ℚ`); the identities proved here
concern the very values stored and re-added in the same accumulation order,
so they are insensitive to that choice.  Python dictionaries coming from
the API are modelled as records whose fields are `Option (Option _)`:
the outer `Option` is key presence (`none` = key absent), the inner one is
nullability (`none` = the key maps to Python `None`).
-/

/-- Truthiness of a Python value that is either `None` (`none`) or a
string: `None` and the empty string are falsy. -/
def pyTruthyStr : Option String → Bool
  | none => false
  | some s => s ≠ ""

/-- Python `a or b` for two such string-or-`None` values. -/
def pyOrStr (a b : Option String) : Option String :=
  if pyTruthyStr a then a else b

/-- Python `v or 0.0` for a numeric value that may be `None`: `None` and
`0.0` are falsy and give `0.0`; any other number is returned unchanged. -/
def pyOrZero : Option ℚ → ℚ
  | none => 0
  | some q => if q = 0 then 0 else q

/-- `project.get(key, 0.0) or 0.0` — the cost-field extraction used in
`process_funding_data`: an absent key defaults to `0.0`, and the `or`
turns a present-but-`None` value into `0.0` as well. -/
def getCost (field : Option (Option ℚ)) : ℚ :=
  pyOrZero (field.getD (some 0))

/-- A raw project record from the NIH Reporter API, restricted to the
fields `process_funding_data` reads.  Outer `Option`: key presence;
inner `Option`: nullability of the stored value. -/
structure RawProjectRecord where
  project_num : Option (Option String)
  project_title : Option (Option String)
  budget_start : Option (Option String)
  budget_end : Option (Option String)
  project_start_date : Option (Option String)
  project_end_date : Option (Option String)
  direct_cost_amt : Option (Option ℚ)
  indirect_cost_amt : Option (Option ℚ)
  award_amount : Option (Option ℚ)
  deriving DecidableEq

/-- One entry of the `processed_projects` list built by
`process_funding_data`.  String-valued fields keep the Python value,
which may be `None` (e.g. a null `project_num` is stored as-is). -/
structure NormalizedProject where
  project_id : Option String
  title : Option String
  start_date : Option String
  end_date : Option String
  budget_start_date : Option String
  budget_end_date : Option String
  project_start_date : Option String
  project_end_date : Option String
  direct_costs : ℚ
  indirect_costs : ℚ
  award_amount : ℚ
  total_costs : ℚ
  deriving DecidableEq

/-- The body of the `for project in projects` loop of
`process_funding_data`: field extraction with defensive defaults and the
total-cost rule. -/
def processRecord (project : RawProjectRecord) : NormalizedProject :=
  let project_id := project.project_num.getD (some "Unknown")
  let title := project.project_title.getD (some "Unknown Title")
  let start_date :=
    pyOrStr (project.budget_start.getD (some "")) (project.project_start_date.getD (some ""))
  let end_date :=
    pyOrStr (project.budget_end.getD (some "")) (project.project_end_date.getD (some ""))
  let direct_costs := getCost project.direct_cost_amt
  let indirect_costs := getCost project.indirect_cost_amt
  let award_amount := getCost project.award_amount
  let project_total_costs :=
    if 0 < award_amount then award_amount else direct_costs + indirect_costs
  { project_id := project_id
    title := title
    start_date := start_date
    end_date := end_date
    budget_start_date := project.budget_start.getD (some "")
    budget_end_date := project.budget_end.getD (some "")
    project_start_date := project.project_start_date.getD (some "")
    project_end_date := project.project_end_date.getD (some "")
    direct_costs := direct_costs
    indirect_costs := indirect_costs
    award_amount := award_amount
    total_costs := project_total_costs }

/-- The dictionary returned by `process_funding_data`. -/
structure ProcessResult where
  total_direct_costs : ℚ
  total_costs : ℚ
  project_count : ℕ
  projects : List NormalizedProject
  deriving DecidableEq

/-- `process_funding_data`: fold over the raw records accumulating
`total_direct_costs`, `total_costs` and the `processed_projects` list in
input order. -/
def process_funding_data (projects : List RawProjectRecord) : ProcessResult :=
  let r := projects.foldl
    (fun (acc : ℚ × ℚ × List NormalizedProject) (project : RawProjectRecord) =>
      let p := processRecord project
      (acc.1 + p.direct_costs, acc.2.1 + p.total_costs, acc.2.2 ++ [p]))
    (0, 0, [])
  { total_direct_costs := r.1
    total_costs := r.2.1
    project_count := r.2.2.length
    projects := r.2.2 }

/-- Record with every key absent — the fully-defaulted input. -/
def emptyRecord : RawProjectRecord :=
  { project_num := none, project_title := none, budget_start := none, budget_end := none
    project_start_date := none, project_end_date := none
    direct_cost_amt := none, indirect_cost_amt := none, award_amount := none }

/-- Record carrying a negative direct-cost amount, as nothing in the code
prevents the API from reporting one. -/
def negCostRecord : RawProjectRecord :=
  { emptyRecord with direct_cost_amt := some (some (-5)) }

/-- Record of the spec example `award=1000, direct=200, indirect=200`. -/
def awardExampleRecord : RawProjectRecord :=
  { emptyRecord with
    direct_cost_amt := some (some 200)
    indirect_cost_amt := some (some 200)
    award_amount := some (some 1000) }

/-- Record of the spec example `direct=300.5, indirect=150.25, award=0`. -/
def noAwardExampleRecord : RawProjectRecord :=
  { emptyRecord with
    direct_cost_amt := some (some (300.5 : ℚ))
    indirect_cost_amt := some (some (150.25 : ℚ))
    award_amount := some (some 0) }

lemma processRecord_direct (project : RawProjectRecord) :
    (processRecord project).direct_costs = getCost project.direct_cost_amt := rfl

lemma processRecord_indirect (project : RawProjectRecord) :
    (processRecord project).indirect_costs = getCost project.indirect_cost_amt := rfl

lemma processRecord_award (project : RawProjectRecord) :
    (processRecord project).award_amount = getCost project.award_amount := rfl

/-- Helper for the per-person totals: one step of the accumulation. -/
lemma process_funding_data_foldl (l : List RawProjectRecord) :
    ∀ (td tc : ℚ) (acc : List NormalizedProject),
      l.foldl
        (fun (acc : ℚ × ℚ × List NormalizedProject) (project : RawProjectRecord) =>
          let p := processRecord project
          (acc.1 + p.direct_costs, acc.2.1 + p.total_costs, acc.2.2 ++ [p]))
        (td, tc, acc) =
      (td + (l.map fun r => (processRecord r).direct_costs).sum,
       tc + (l.map fun r => (processRecord r).total_costs).sum,
       acc ++ l.map processRecord) := by
  induction l with
  | nil => intro td tc acc; simp
  | cons r l ih =>
    intro td tc acc
    simp only [List.foldl_cons, List.map_cons, List.sum_cons, ih, List.append_assoc]
    refine congrArg₂ Prod.mk ?_ (congrArg₂ Prod.mk ?_ ?_) <;> simp [add_assoc]

/-- Claim C1: for every raw project record, the normalized total cost is
the award amount when that (defaulted) award amount is strictly positive,
and the sum of the (defaulted) direct and indirect costs otherwise;
the two spec examples evaluate accordingly. -/
theorem total_cost_rule (rec : RawProjectRecord) :
    ((processRecord rec).total_costs =
      if 0 < getCost rec.award_amount then getCost rec.award_amount
      else getCost rec.direct_cost_amt + getCost rec.indirect_cost_amt)
    ∧ (processRecord awardExampleRecord).total_costs = 1000
    ∧ (processRecord noAwardExampleRecord).total_costs = (450.75 : ℚ) := by
  refine ⟨rfl, by norm_num [processRecord, getCost, pyOrZero, awardExampleRecord,
    noAwardExampleRecord, emptyRecord], by norm_num [processRecord, getCost, pyOrZero,
    awardExampleRecord, noAwardExampleRecord, emptyRecord]⟩

/-- Claim C2: the accumulated totals returned by `process_funding_data`
are exactly the sums of the corresponding fields of the produced
normalized projects. -/
theorem totals_agree_with_projects (records : List RawProjectRecord) :
    (process_funding_data records).total_costs =
      ((process_funding_data records).projects.map NormalizedProject.total_costs).sum
    ∧ (process_funding_data records).total_direct_costs =
      ((process_funding_data records).projects.map NormalizedProject.direct_costs).sum := by
  simp only [process_funding_data, process_funding_data_foldl, List.map_map, List.nil_append,
    zero_add]
  exact ⟨rfl, rfl⟩

/-- Claim C6: the normalizer is total (it is a Lean function) and applies
the documented defaults: absent-or-null cost fields become `0`, an absent
identifier becomes `"Unknown"`, an absent title becomes
`"Unknown Title"`. -/
theorem normalizer_defaults (rec : RawProjectRecord) :
    (rec.direct_cost_amt = none ∨ rec.direct_cost_amt = some none →
      (processRecord rec).direct_costs = 0)
    ∧ (rec.indirect_cost_amt = none ∨ rec.indirect_cost_amt = some none →
      (processRecord rec).indirect_costs = 0)
    ∧ (rec.award_amount = none ∨ rec.award_amount = some none →
      (processRecord rec).award_amount = 0)
    ∧ (rec.project_num = none → (processRecord rec).project_id = some "Unknown")
    ∧ (rec.project_title = none → (processRecord rec).title = some "Unknown Title") := by
  refine ⟨?_, ?_, ?_, ?_, ?_⟩
  · rintro (h | h) <;> simp [processRecord_direct, getCost, pyOrZero, h]
  · rintro (h | h) <;> simp [processRecord_indirect, getCost, pyOrZero, h]
  · rintro (h | h) <;> simp [processRecord_award, getCost, pyOrZero, h]
  · intro h; simp [processRecord, h]
  · intro h; simp [processRecord, h]

/-- Witness for claim C6 at the all-absent record. -/
theorem normalizer_defaults_witness :
    (processRecord emptyRecord).direct_costs = 0
    ∧ (processRecord emptyRecord).indirect_costs = 0
    ∧ (processRecord emptyRecord).award_amount = 0
    ∧ (processRecord emptyRecord).project_id = some "Unknown"
    ∧ (processRecord emptyRecord).title = some "Unknown Title" := by
  obtain ⟨h1, h2, h3, h4, h5⟩ := normalizer_defaults emptyRecord
  exact ⟨h1 (Or.inl rfl), h2 (Or.inl rfl), h3 (Or.inl rfl), h4 rfl, h5 rfl⟩

/-- Counterexample to claim C8 as stated: the code never clamps, so a raw
record carrying a negative `direct_cost_amt` yields a negative normalized
`direct_costs`. -/
theorem normalizer_not_nonneg :
    (processRecord negCostRecord).direct_costs < 0 := by
  norm_num [processRecord_direct, negCostRecord, emptyRecord, getCost, pyOrZero]

/-- Claim C8, amended: whenever the present, non-null cost fields of a raw
record are non-negative, the produced direct, indirect and award fields
are non-negative, and they are `0` when the source field is absent. -/
theorem normalizer_nonneg_of_nonneg (rec : RawProjectRecord)
    (hd : ∀ q : ℚ, rec.direct_cost_amt = some (some q) → 0 ≤ q)
    (hi : ∀ q : ℚ, rec.indirect_cost_amt = some (some q) → 0 ≤ q)
    (ha : ∀ q : ℚ, rec.award_amount = some (some q) → 0 ≤ q) :
    0 ≤ (processRecord rec).direct_costs
    ∧ 0 ≤ (processRecord rec).indirect_costs
    ∧ 0 ≤ (processRecord rec).award_amount
    ∧ (rec.direct_cost_amt = none → (processRecord rec).direct_costs = 0)
    ∧ (rec.indirect_cost_amt = none → (processRecord rec).indirect_costs = 0)
    ∧ (rec.award_amount = none → (processRecord rec).award_amount = 0) := by
  refine ⟨?_, ?_, ?_, ?_, ?_, ?_⟩
  · rcases h : rec.direct_cost_amt with _ | q
    · simp [processRecord_direct, getCost, pyOrZero, h]
    · rcases q with _ | q
      · simp [processRecord_direct, getCost, pyOrZero, h]
      · have := hd q h
        simp only [processRecord_direct, getCost, pyOrZero, h, Option.getD_some]
        split <;> simp_all
  · rcases h : rec.indirect_cost_amt with _ | q
    · simp [processRecord_indirect, getCost, pyOrZero, h]
    · rcases q with _ | q
      · simp [processRecord_indirect, getCost, pyOrZero, h]
      · have := hi q h
        simp only [processRecord_indirect, getCost, pyOrZero, h, Option.getD_some]
        split <;> simp_all
  · rcases h : rec.award_amount with _ | q
    · simp [processRecord_award, getCost, pyOrZero, h]
    · rcases q with _ | q
      · simp [processRecord_award, getCost, pyOrZero, h]
      · have := ha q h
        simp only [processRecord_award, getCost, pyOrZero, h, Option.getD_some]
        split <;> simp_all
  · intro h; simp [processRecord_direct, getCost, pyOrZero, h]
  · intro h; simp [processRecord_indirect, getCost, pyOrZero, h]
  · intro h; simp [processRecord_award, getCost, pyOrZero, h]

/-- Witness for the amended claim C8 at a record with one non-negative
present cost field. -/
theorem normalizer_nonneg_witness :
    0 ≤ (processRecord awardExampleRecord).direct_costs
    ∧ 0 ≤ (processRecord awardExampleRecord).award_amount := by
  have h := normalizer_nonneg_of_nonneg awardExampleRecord
    (fun q hq => by
      simp only [awardExampleRecord, emptyRecord] at hq
      obtain rfl : (200 : ℚ) = q := by injection hq with hq; injection hq
      norm_num)
    (fun q hq => by
      simp only [awardExampleRecord, emptyRecord] at hq
      obtain rfl : (200 : ℚ) = q := by injection hq with hq; injection hq
      norm_num)
    (fun q hq => by
      simp only [awardExampleRecord, emptyRecord] at hq
      obtain rfl : (1000 : ℚ) = q := by injection hq with hq; injection hq
      norm_num)
  exact ⟨h.1, h.2.2.1⟩

/-! ### Name cleaning (`search_names_from_yaml` pre-query transform)

`clean_name = name.replace('.', '').replace('  ', ' ')`: Python
`str.replace` deletes every period, then makes one left-to-right pass
replacing each non-overlapping two-space run by a single space. -/

/-- `name.replace('.', '')`: delete every period character. -/
def removeDots : List Char → List Char
  | [] => []
  | c :: rest => if c = '.' then removeDots rest else c :: removeDots rest

/-- `s.replace('  ', ' ')`: one left-to-right pass over the characters,
replacing each non-overlapping occurrence of two spaces by one space. -/
def collapseDouble : List Char → List Char
  | c₁ :: c₂ :: rest =>
    if c₁ = ' ' ∧ c₂ = ' ' then ' ' :: collapseDouble rest
    else c₁ :: collapseDouble (c₂ :: rest)
  | l => l

/-- The name-cleaning transform applied to each YAML name before the API
query: `name.replace('.', '').replace('  ', ' ')`. -/
def clean_name (name : String) : String :=
  String.mk (collapseDouble (removeDots name.data))

/-- Whether a character list contains two consecutive spaces. -/
def hasConsecutiveSpaces : List Char → Bool
  | c₁ :: c₂ :: rest => (c₁ = ' ' && c₂ = ' ') || hasConsecutiveSpaces (c₂ :: rest)
  | _ => false

lemma removeDots_eq_filter (l : List Char) :
    removeDots l = l.filter fun c => c ≠ '.' := by
  induction l with
  | nil => rfl
  | cons c rest ih =>
    by_cases h : c = '.' <;> simp [removeDots, h, ih, List.filter_cons]

/-- Claim C7: the name-cleaning transform equals removing every period
and then making a single non-overlapping two-space-to-one-space pass, and
it is not idempotent: an input with three consecutive spaces still has
consecutive spaces after cleaning, and cleaning twice differs from
cleaning once. -/
theorem clean_name_spec :
    (∀ s : String,
      clean_name s = String.mk (collapseDouble (s.data.filter fun c => c ≠ '.')))
    ∧ hasConsecutiveSpaces ("a   b").data = true
    ∧ hasConsecutiveSpaces (clean_name "a   b").data = true
    ∧ clean_name (clean_name "a   b") ≠ clean_name "a   b" := by
  refine ⟨fun s => ?_, by decide, by decide, by decide⟩
  rw [clean_name, removeDots_eq_filter]

/-! ### Sorting the results mapping (`_sort_results_by_last_name`)

The results dictionary (insertion-ordered name-to-data pairs) is sorted
with Python `sorted(results.items(), key=lambda x: get_last_name(x[0]))`:
a stable sort on the last-name key, where string comparison is
code-point lexicographic.  `sorted` is modelled as a stable insertion
sort — extensionally the unique stable sort. -/

/-- Python code-point-lexicographic string comparison, on the character
lists: `le` of Python `str` ordering. -/
def charListLe : List Char → List Char → Bool
  | [], _ => true
  | _ :: _, [] => false
  | a :: as, b :: bs => if a = b then charListLe as bs else decide (a < b)

/-- Python `<=` on strings. -/
def strLe (a b : String) : Bool := charListLe a.data b.data

/-- `parts = name.strip().split()`: Python whitespace tokenization
(leading/trailing whitespace ignored, runs of whitespace separate
tokens); the accumulator carries the current token reversed. -/
def wsTokensAux : List Char → List Char → List String
  | [], acc => if acc = [] then [] else [String.mk acc.reverse]
  | c :: rest, acc =>
    if c.isWhitespace then
      if acc = [] then wsTokensAux rest []
      else String.mk acc.reverse :: wsTokensAux rest []
    else wsTokensAux rest (c :: acc)

/-- `get_last_name` of `_sort_results_by_last_name`: final
whitespace-separated token of the name, `""` when there is none. -/
def get_last_name (name : String) : String :=
  ((wsTokensAux name.data []).getLast?).getD ""

/-- Stable insertion of one `(name, data)` pair: the pair goes before the
first element whose last-name key is not smaller. -/
def insertByKey {α : Type} (a : String × α) : List (String × α) → List (String × α)
  | [] => [a]
  | b :: l =>
    if strLe (get_last_name a.1) (get_last_name b.1) then a :: b :: l
    else b :: insertByKey a l

/-- `_sort_results_by_last_name`: stable sort of the results pairs by
last-name key. -/
def sortResults {α : Type} : List (String × α) → List (String × α)
  | [] => []
  | a :: l => insertByKey a (sortResults l)


lemma charListLe_total (a b : List Char) : charListLe a b = true ∨ charListLe b a = true := by
  induction a generalizing b with
  | nil => left; rfl
  | cons x xs ih =>
    cases b with
    | nil => right; rfl
    | cons y ys =>
      by_cases hxy : x = y
      · subst hxy
        rcases ih ys with h | h <;> simp [charListLe, h]
      · have hne : y ≠ x := fun h => hxy h.symm
        rcases lt_trichotomy x y with h | h | h
        · left; simp [charListLe, hxy, h]
        · exact absurd h hxy
        · right; simp [charListLe, hne, h]

lemma strLe_total (a b : String) : strLe a b = true ∨ strLe b a = true :=
  charListLe_total a.data b.data

lemma charListLe_trans {a b c : List Char} (hab : charListLe a b = true)
    (hbc : charListLe b c = true) : charListLe a c = true := by
  induction a generalizing b c with
  | nil => rfl
  | cons x xs ih =>
    cases b with
    | nil => simp [charListLe] at hab
    | cons y ys =>
      cases c with
      | nil => simp [charListLe] at hbc
      | cons z zs =>
        by_cases hxy : x = y <;> by_cases hyz : y = z
        · subst hxy; subst hyz
          simp only [charListLe, if_pos rfl] at hab hbc ⊢
          exact ih hab hbc
        · subst hxy
          simp only [charListLe, if_pos rfl] at hab
          simp only [charListLe, if_neg hyz] at hbc ⊢
          exact hbc
        · subst hyz
          simp only [charListLe, if_neg hxy] at hab ⊢
          exact hab
        · simp only [charListLe, if_neg hxy] at hab
          simp only [charListLe, if_neg hyz] at hbc
          have hxz : x < z := lt_trans (of_decide_eq_true hab) (of_decide_eq_true hbc)
          have hne : x ≠ z := ne_of_lt hxz
          simp [charListLe, hne, hxz]

lemma strLe_trans {a b c : String} (hab : strLe a b = true) (hbc : strLe b c = true) :
    strLe a c = true :=
  charListLe_trans hab hbc

lemma charListLe_refl (a : List Char) : charListLe a a = true := by
  induction a with
  | nil => rfl
  | cons x xs ih => simp [charListLe, ih]

lemma strLe_refl (a : String) : strLe a a = true :=
  charListLe_refl a.data

lemma mem_insertByKey {α : Type} (a x : String × α) (l : List (String × α)) :
    x ∈ insertByKey a l ↔ x = a ∨ x ∈ l := by
  induction l with
  | nil => simp [insertByKey]
  | cons b l ih =>
    simp only [insertByKey]
    split
    · simp
    · simp only [List.mem_cons, ih]
      tauto

lemma insertByKey_perm {α : Type} (a : String × α) (l : List (String × α)) :
    List.Perm (insertByKey a l) (a :: l) := by
  induction l with
  | nil => simp [insertByKey]
  | cons b l ih =>
    simp only [insertByKey]
    split
    · exact List.Perm.refl _
    · exact (List.Perm.cons b ih).trans (List.Perm.swap a b l)

lemma sortResults_perm {α : Type} (rs : List (String × α)) :
    List.Perm (sortResults rs) rs := by
  induction rs with
  | nil => exact List.Perm.refl _
  | cons a l ih =>
    exact (insertByKey_perm a (sortResults l)).trans (List.Perm.cons a ih)

lemma insertByKey_pairwise {α : Type} (a : String × α) (l : List (String × α))
    (h : List.Pairwise (fun p q => strLe (get_last_name p.1) (get_last_name q.1) = true) l) :
    List.Pairwise (fun p q => strLe (get_last_name p.1) (get_last_name q.1) = true)
      (insertByKey a l) := by
  induction l with
  | nil => simp [insertByKey]
  | cons b l ih =>
    rcases List.pairwise_cons.mp h with ⟨hb, hl⟩
    simp only [insertByKey]
    split
    · rename_i hab
      refine List.pairwise_cons.mpr ⟨?_, h⟩
      intro q hq
      rcases List.mem_cons.mp hq with rfl | hq
      · exact hab
      · exact strLe_trans hab (hb q hq)
    · rename_i hab
      refine List.pairwise_cons.mpr ⟨?_, ih hl⟩
      intro q hq
      rcases (mem_insertByKey a q l).mp hq with rfl | hq
      · rcases strLe_total (get_last_name q.1) (get_last_name b.1) with h' | h'
        · exact absurd h' hab
        · exact h'
      · exact hb q hq

lemma sortResults_pairwise {α : Type} (rs : List (String × α)) :
    List.Pairwise (fun p q => strLe (get_last_name p.1) (get_last_name q.1) = true)
      (sortResults rs) := by
  induction rs with
  | nil => exact List.Pairwise.nil
  | cons a l ih => exact insertByKey_pairwise a (sortResults l) ih

lemma filter_insertByKey_eq {α : Type} (a : String × α) (l : List (String × α)) (k : String)
    (hk : get_last_name a.1 = k)
    (hl : List.Pairwise (fun p q => strLe (get_last_name p.1) (get_last_name q.1) = true) l) :
    (insertByKey a l).filter (fun p => decide (get_last_name p.1 = k)) =
      a :: l.filter (fun p => decide (get_last_name p.1 = k)) := by
  induction l with
  | nil => simp [insertByKey, List.filter_cons, hk]
  | cons b l ih =>
    rcases List.pairwise_cons.mp hl with ⟨hb, htl⟩
    simp only [insertByKey]
    split
    · simp [List.filter_cons, hk]
    · rename_i hab
      -- b is strictly below a in the key order, so its key differs from k
      have hbk : get_last_name b.1 ≠ k := by
        intro hbk
        have heq : get_last_name a.1 = get_last_name b.1 := hk.trans hbk.symm
        rw [heq] at hab
        exact hab (strLe_refl _)
      simp [List.filter_cons, hbk, ih htl]

lemma filter_insertByKey_ne {α : Type} (a : String × α) (l : List (String × α)) (k : String)
    (hk : get_last_name a.1 ≠ k) :
    (insertByKey a l).filter (fun p => decide (get_last_name p.1 = k)) =
      l.filter (fun p => decide (get_last_name p.1 = k)) := by
  induction l with
  | nil => simp [insertByKey, List.filter_cons, hk]
  | cons b l ih =>
    simp only [insertByKey]
    split
    · simp [List.filter_cons, hk]
    · by_cases hbk : get_last_name b.1 = k <;> simp [List.filter_cons, hbk, ih]

lemma sortResults_filter {α : Type} (rs : List (String × α)) (k : String) :
    (sortResults rs).filter (fun p => decide (get_last_name p.1 = k)) =
      rs.filter (fun p => decide (get_last_name p.1 = k)) := by
  induction rs with
  | nil => rfl
  | cons a l ih =>
    show (insertByKey a (sortResults l)).filter _ = _
    by_cases hk : get_last_name a.1 = k
    · rw [filter_insertByKey_eq a _ k hk (sortResults_pairwise l), ih, List.filter_cons,
        if_pos (by simp [hk])]
    · rw [filter_insertByKey_ne a _ k hk, ih, List.filter_cons, if_neg (by simp [hk])]

/-- Claim C5: the exported ordering is sorted by last name (the final
whitespace-separated token, `""` for an all-whitespace name), equal last
names keep their original relative order (stability, stated as filter
preservation), and the spec examples evaluate as stated. -/
theorem sort_by_last_name_spec {α : Type} (rs : List (String × α)) :
    List.Pairwise (fun p q => strLe (get_last_name p.1) (get_last_name q.1) = true)
      (sortResults rs)
    ∧ (∀ k : String,
        (sortResults rs).filter (fun p => decide (get_last_name p.1 = k)) =
          rs.filter (fun p => decide (get_last_name p.1 = k)))
    ∧ get_last_name "Jane Doe" = "Doe"
    ∧ get_last_name "Dr. Alice Johnson" = "Johnson"
    ∧ get_last_name "   " = ""
    ∧ (sortResults [("John Smith", (1 : ℕ)), ("Jane Doe", 2), ("Dr. Alice Johnson", 3)]).map
        Prod.fst = ["Jane Doe", "Dr. Alice Johnson", "John Smith"] := by
  exact ⟨sortResults_pairwise rs, fun k => sortResults_filter rs k, by decide, by decide,
    by decide, by decide⟩

/-- Claim C10: sorting the results mapping only reorders it — the output
is a permutation of the input, so it has exactly the same name-to-data
pairs, each person bound to its unmodified data. -/
theorem sort_preserves_content {α : Type} (rs : List (String × α)) :
    List.Perm (sortResults rs) rs
    ∧ ∀ (k : String) (v : α), (k, v) ∈ sortResults rs ↔ (k, v) ∈ rs :=
  ⟨sortResults_perm rs, fun _ _ => (sortResults_perm rs).mem_iff⟩

/-! ### Date parsing in the summary metrics (`create_summary_csv`)

`datetime.strptime(s, fmt)` is tried with `'%Y-%m-%dT%H:%M:%S'` and, on
`ValueError`, with `'%Y-%m-%d'`.  CPython compiles these formats to a
regular expression — `%Y` is exactly four digits; `%m`/`%d` are one or
two digits in range (no two-digit `00`); `%H`, `%M`, `%S` are one or two
digits in range — requires the whole string to be consumed, and the
`datetime` constructor then validates the day against the month length
and the year against `MINYEAR = 1`.  Failure of any step raises
`ValueError`, i.e. returns `none` here. -/

/-- A parsed `datetime.datetime` value. -/
structure DateTime where
  year : ℕ
  month : ℕ
  day : ℕ
  hour : ℕ
  minute : ℕ
  second : ℕ
  deriving DecidableEq

/-- A `datetime.date` value, as produced by `.date()`. -/
structure Date where
  year : ℕ
  month : ℕ
  day : ℕ
  deriving DecidableEq

/-- `.date()` on a parsed datetime. -/
def DateTime.toDate (dt : DateTime) : Date :=
  { year := dt.year, month := dt.month, day := dt.day }

/-- Python `datetime` comparison `a > b` is lexicographic on the six
fields; `dtLt a b` is `a < b`. -/
def dtLt (a b : DateTime) : Bool :=
  decide (a.year < b.year ∨ (a.year = b.year ∧ (a.month < b.month ∨ (a.month = b.month ∧
    (a.day < b.day ∨ (a.day = b.day ∧ (a.hour < b.hour ∨ (a.hour = b.hour ∧
      (a.minute < b.minute ∨ (a.minute = b.minute ∧ a.second < b.second))))))))))

/-- Python `date` comparison `a <= b`, lexicographic on the three fields. -/
def dateLe (a b : Date) : Bool :=
  decide (a.year < b.year ∨ (a.year = b.year ∧ (a.month < b.month ∨ (a.month = b.month ∧
    a.day ≤ b.day))))

/-- Numeric value of a decimal digit character. -/
def digitVal (c : Char) : ℕ := c.toNat - 48

/-- `%Y`: exactly four decimal digits. -/
def parseY : List Char → Option (ℕ × List Char)
  | a :: b :: c :: d :: rest =>
    if a.isDigit ∧ b.isDigit ∧ c.isDigit ∧ d.isDigit then
      some (1000 * digitVal a + 100 * digitVal b + 10 * digitVal c + digitVal d, rest)
    else none
  | _ => none

/-- A one-or-two-digit numeric directive.  With the surrounding literal
separators being non-digits, CPython regex backtracking accepts exactly:
two leading digits whose value lies in `[min2, max2]`, or a single
leading digit (not followed by another digit) of value at least
`min1`. -/
def parseNN (min1 min2 max2 : ℕ) : List Char → Option (ℕ × List Char)
  | [] => none
  | c :: rest =>
    if c.isDigit then
      match rest with
      | c₂ :: rest₂ =>
        if c₂.isDigit then
          let v := 10 * digitVal c + digitVal c₂
          if min2 ≤ v ∧ v ≤ max2 then some (v, rest₂) else none
        else
          if min1 ≤ digitVal c then some (digitVal c, rest) else none
      | [] =>
        if min1 ≤ digitVal c then some (digitVal c, []) else none
    else none

/-- A literal character of the format. -/
def parseLit (ch : Char) : List Char → Option (List Char)
  | c :: rest => if c = ch then some rest else none
  | [] => none

/-- Gregorian leap-year rule used by `datetime`. -/
def isLeap (y : ℕ) : Bool := y % 4 = 0 ∧ (y % 100 ≠ 0 ∨ y % 400 = 0)

/-- Length of a month, as validated by the `datetime` constructor. -/
def daysInMonth (y m : ℕ) : ℕ :=
  if m = 2 then (if isLeap y then 29 else 28)
  else if m = 4 ∨ m = 6 ∨ m = 9 ∨ m = 11 then 30
  else 31

/-- `datetime.strptime(s, '%Y-%m-%dT%H:%M:%S')`. -/
def parseDateTimeFmt (s : String) : Option DateTime := do
  let (y, r) ← parseY s.data
  let r ← parseLit '-' r
  let (mo, r) ← parseNN 1 1 12 r
  let r ← parseLit '-' r
  let (dy, r) ← parseNN 1 1 31 r
  let r ← parseLit 'T' r
  let (h, r) ← parseNN 0 0 23 r
  let r ← parseLit ':' r
  let (mi, r) ← parseNN 0 0 59 r
  let r ← parseLit ':' r
  let (se, r) ← parseNN 0 0 59 r
  if r = [] ∧ 1 ≤ y ∧ dy ≤ daysInMonth y mo then
    some { year := y, month := mo, day := dy, hour := h, minute := mi, second := se }
  else none

/-- `datetime.strptime(s, '%Y-%m-%d')`; the time components are zero. -/
def parseDateFmt (s : String) : Option DateTime := do
  let (y, r) ← parseY s.data
  let r ← parseLit '-' r
  let (mo, r) ← parseNN 1 1 12 r
  let r ← parseLit '-' r
  let (dy, r) ← parseNN 1 1 31 r
  if r = [] ∧ 1 ≤ y ∧ dy ≤ daysInMonth y mo then
    some { year := y, month := mo, day := dy, hour := 0, minute := 0, second := 0 }
  else none

/-- The try/except fallback used by both metric loops: attempt the
combined date-and-time format and, on `ValueError`, the date-only
format. -/
def parseDateTwoFormats (s : String) : Option DateTime :=
  match parseDateTimeFmt s with
  | some dt => some dt
  | none => parseDateFmt s

example : parseDateTwoFormats "2021-06-30T00:00:00" =
    some { year := 2021, month := 6, day := 30, hour := 0, minute := 0, second := 0 } := by decide
example : parseDateTwoFormats "2019-01-01" =
    some { year := 2019, month := 1, day := 1, hour := 0, minute := 0, second := 0 } := by decide
example : parseDateTwoFormats "N/A" = none := by decide
example : parseDateTwoFormats "2021-02-29" = none := by decide
example : parseDateTwoFormats "2020-02-29" =
    some { year := 2020, month := 2, day := 29, hour := 0, minute := 0, second := 0 } := by decide
example : parseDateTwoFormats "2021-6-3" =
    some { year := 2021, month := 6, day := 3, hour := 0, minute := 0, second := 0 } := by decide
example : parseDateTwoFormats "2021-13-01" = none := by decide
example : parseDateTwoFormats "0000-01-01" = none := by decide

/-! ### The most-recent-year metric (`create_summary_csv`, lines 197-226) -/

/-- The update of `latest_end_date` performed after a successful parse:
replace it when it is `None` or when the new date is strictly greater. -/
def maxStep (latest : Option DateTime) (d : DateTime) : Option DateTime :=
  match latest with
  | none => some d
  | some m => if dtLt m d then some d else some m

/-- The end-date handling of one loop iteration: the `if end_date:`
truthiness guard followed by the two-format parse; `none` when the guard
fails or both formats raise. -/
def endDateParsed (p : NormalizedProject) : Option DateTime :=
  if pyTruthyStr p.end_date then parseDateTwoFormats (p.end_date.getD "") else none

/-- The `latest_end_date` scan over a person's projects. -/
def scanLatest (projects : List NormalizedProject) : Option DateTime :=
  projects.foldl
    (fun latest p =>
      match endDateParsed p with
      | some dt => maxStep latest dt
      | none => latest)
    none

/-- The successfully parsed end dates, in project order (specification
view of the same scan). -/
def parsedEndDates (ps : List NormalizedProject) : List DateTime :=
  ps.filterMap endDateParsed

/-- `most_recent_year`: `None` when the project list is empty or no end
date parses, otherwise the year of `latest_end_date`. -/
def most_recent_year (ps : List NormalizedProject) : Option ℕ :=
  if ps.isEmpty then none
  else
    match scanLatest ps with
    | some latest => some latest.year
    | none => none

/-- The CSV cell `most_recent_year or 'N/A'` (a year of `0` would be
falsy in Python, hence the guard; parsed years are in fact positive). -/
def most_recent_year_cell (ps : List NormalizedProject) : String :=
  match most_recent_year ps with
  | some y => if y = 0 then "N/A" else toString y
  | none => "N/A"

lemma dtLt_trans {a b c : DateTime} (hab : dtLt a b = true) (hbc : dtLt b c = true) :
    dtLt a c = true := by
  simp only [dtLt, decide_eq_true_eq] at hab hbc ⊢
  omega

lemma dtLt_of_not_lt_of_lt {m d r : DateTime} (hmd : dtLt m d = false)
    (hmr : dtLt m r = true) : dtLt d r = true := by
  simp only [dtLt, decide_eq_false_iff_not, decide_eq_true_eq] at hmd hmr ⊢
  omega

lemma scanLatest_foldl (ps : List NormalizedProject) :
    ∀ acc : Option DateTime,
      ps.foldl
        (fun latest p =>
          match endDateParsed p with
          | some dt => maxStep latest dt
          | none => latest)
        acc = (parsedEndDates ps).foldl maxStep acc := by
  induction ps with
  | nil => intro acc; rfl
  | cons p ps ih =>
    intro acc
    cases h : endDateParsed p <;>
      simp [parsedEndDates, List.filterMap_cons, h, ih, List.foldl_cons]

/-- The fold keeps the first occurrence of the running maximum: its
result decomposes the scanned list into a strictly smaller prefix, the
result itself, and a not-strictly-greater suffix. -/
lemma foldl_maxStep_some (l : List DateTime) :
    ∀ m : DateTime,
      ∃ r l₁ l₂, l.foldl maxStep (some m) = some r ∧ m :: l = l₁ ++ r :: l₂
        ∧ (∀ d ∈ l₁, dtLt d r = true) ∧ (∀ d ∈ l₂, dtLt r d = false) := by
  induction l with
  | nil => intro m; exact ⟨m, [], [], rfl, rfl, by simp, by simp⟩
  | cons d l ih =>
    intro m
    simp only [List.foldl_cons]
    by_cases h : dtLt m d = true
    · have hstep : maxStep (some m) d = some d := by simp [maxStep, h]
      rw [hstep]
      obtain ⟨r, l₁, l₂, hfold, hdec, h₁, h₂⟩ := ih d
      refine ⟨r, m :: l₁, l₂, hfold, by simpa using congrArg (m :: ·) hdec, ?_, h₂⟩
      intro x hx
      rcases List.mem_cons.mp hx with rfl | hx
      · cases l₁ with
        | nil =>
          obtain ⟨rfl, -⟩ : d = r ∧ l = l₂ := by
            simpa using congrArg (fun t => (t.head?, t.tail)) hdec
          exact h
        | cons e l₁' =>
          obtain ⟨rfl, -⟩ : d = e ∧ l = l₁' ++ r :: l₂ := by
            simpa using congrArg (fun t => (t.head?, t.tail)) hdec
          exact dtLt_trans h (h₁ d (List.mem_cons_self d l₁'))
      · exact h₁ x hx
    · have hf : dtLt m d = false := Bool.not_eq_true _ ▸ eq_false_of_ne_true h
      have hstep : maxStep (some m) d = some m := by simp [maxStep, hf]
      rw [hstep]
      obtain ⟨r, l₁, l₂, hfold, hdec, h₁, h₂⟩ := ih m
      cases l₁ with
      | nil =>
        obtain ⟨rfl, rfl⟩ : m = r ∧ l = l₂ := by
          simpa using congrArg (fun t => (t.head?, t.tail)) hdec
        refine ⟨m, [], d :: l, hfold, rfl, by simp, ?_⟩
        intro x hx
        rcases List.mem_cons.mp hx with rfl | hx
        · exact hf
        · exact h₂ x hx
      | cons e l₁' =>
        obtain ⟨rfl, hl⟩ : m = e ∧ l = l₁' ++ r :: l₂ := by
          simpa using congrArg (fun t => (t.head?, t.tail)) hdec
        have hmr : dtLt m r = true := h₁ m (List.mem_cons_self m l₁')
        refine ⟨r, m :: d :: l₁', l₂, hfold, by simp [hl], ?_, h₂⟩
        intro x hx
        rcases List.mem_cons.mp hx with rfl | hx
        · exact hmr
        rcases List.mem_cons.mp hx with rfl | hx
        · exact dtLt_of_not_lt_of_lt hf hmr
        · exact h₁ x (List.mem_cons_of_mem _ hx)

lemma scanLatest_eq_foldl (ps : List NormalizedProject) :
    scanLatest ps = (parsedEndDates ps).foldl maxStep none :=
  scanLatest_foldl ps none

/-- Years accepted by `datetime.strptime` are at least `MINYEAR = 1`. -/
lemma parseDateTimeFmt_year_pos {s : String} {dt : DateTime}
    (h : parseDateTimeFmt s = some dt) : 1 ≤ dt.year := by
  simp only [parseDateTimeFmt, Option.bind_eq_bind, Option.bind_eq_some] at h
  obtain ⟨⟨y, r⟩, hy, h⟩ := h
  obtain ⟨r, hr, h⟩ := h
  obtain ⟨⟨mo, r⟩, hmo, h⟩ := h
  obtain ⟨r, hr2, h⟩ := h
  obtain ⟨⟨dy, r⟩, hdy, h⟩ := h
  obtain ⟨r, hr3, h⟩ := h
  obtain ⟨⟨hh, r⟩, hhh, h⟩ := h
  obtain ⟨r, hr4, h⟩ := h
  obtain ⟨⟨mi, r⟩, hmi, h⟩ := h
  obtain ⟨r, hr5, h⟩ := h
  obtain ⟨⟨se, r⟩, hse, h⟩ := h
  split at h
  · rename_i hcond
    injection h with h
    subst h
    exact hcond.2.1
  · exact Option.noConfusion h

lemma parseDateFmt_year_pos {s : String} {dt : DateTime}
    (h : parseDateFmt s = some dt) : 1 ≤ dt.year := by
  simp only [parseDateFmt, Option.bind_eq_bind, Option.bind_eq_some] at h
  obtain ⟨⟨y, r⟩, hy, h⟩ := h
  obtain ⟨r, hr, h⟩ := h
  obtain ⟨⟨mo, r⟩, hmo, h⟩ := h
  obtain ⟨r, hr2, h⟩ := h
  obtain ⟨⟨dy, r⟩, hdy, h⟩ := h
  split at h
  · rename_i hcond
    injection h with h
    subst h
    exact hcond.2.1
  · exact Option.noConfusion h

lemma parseDateTwoFormats_year_pos {s : String} {dt : DateTime}
    (h : parseDateTwoFormats s = some dt) : 1 ≤ dt.year := by
  rw [parseDateTwoFormats] at h
  split at h
  · rename_i val heq
    injection h with h
    subst h
    exact parseDateTimeFmt_year_pos heq
  · exact parseDateFmt_year_pos h

lemma endDateParsed_year_pos {p : NormalizedProject} {dt : DateTime}
    (h : endDateParsed p = some dt) : 1 ≤ dt.year := by
  rw [endDateParsed] at h
  split at h
  · exact parseDateTwoFormats_year_pos h
  · exact Option.noConfusion h

/-- Claim C3: end dates are parsed with exactly the two accepted formats
(illustrated on the spec's examples, with the unparseable `"N/A"`
skipped); when no end date parses the metric cell reads `"N/A"`; and
when the scan returns a date, the cell is its calendar year and the
parsed end dates split into a strictly-smaller prefix, that date, and a
not-strictly-greater suffix — the earliest-seen maximum wins because the
comparison is strict. -/
theorem most_recent_year_spec (ps : List NormalizedProject) :
    (parseDateTwoFormats "2021-06-30T00:00:00" =
        some { year := 2021, month := 6, day := 30, hour := 0, minute := 0, second := 0 }
      ∧ parseDateTwoFormats "2019-01-01" =
        some { year := 2019, month := 1, day := 1, hour := 0, minute := 0, second := 0 }
      ∧ parseDateTwoFormats "N/A" = none)
    ∧ (parsedEndDates ps = [] → most_recent_year_cell ps = "N/A")
    ∧ (∀ dt : DateTime, scanLatest ps = some dt →
        most_recent_year_cell ps = toString dt.year
        ∧ ∃ l₁ l₂, parsedEndDates ps = l₁ ++ dt :: l₂
            ∧ (∀ d ∈ l₁, dtLt d dt = true) ∧ (∀ d ∈ l₂, dtLt dt d = false)) := by
  refine ⟨⟨by decide, by decide, by decide⟩, ?_, ?_⟩
  · intro hempty
    have hscan : scanLatest ps = none := by
      rw [scanLatest_eq_foldl, hempty]; rfl
    have hmr : most_recent_year ps = none := by
      rw [most_recent_year]
      by_cases hE : ps.isEmpty
      · rw [if_pos hE]
      · rw [if_neg hE, hscan]
    rw [most_recent_year_cell, hmr]
  · intro dt hdt
    have hfold : (parsedEndDates ps).foldl maxStep none = some dt := by
      rw [← scanLatest_eq_foldl]; exact hdt
    rcases hp : parsedEndDates ps with _ | ⟨d, rest⟩
    · rw [hp] at hfold; exact Option.noConfusion hfold
    · rw [hp, List.foldl_cons] at hfold
      have hstep : maxStep none d = some d := rfl
      rw [hstep] at hfold
      obtain ⟨r, l₁, l₂, hfold', hdec, h₁, h₂⟩ := foldl_maxStep_some rest d
      rw [hfold'] at hfold
      injection hfold with hfold
      subst hfold
      have hmem : r ∈ parsedEndDates ps := by
        rw [hp, hdec]
        exact List.mem_append_right _ (List.mem_cons_self _ _)
      obtain ⟨p, -, hpp⟩ := List.mem_filterMap.mp hmem
      have hyear : 1 ≤ r.year := endDateParsed_year_pos hpp
      have hne : ps ≠ [] := by
        intro hps
        rw [hps] at hp
        exact List.noConfusion hp
      constructor
      · rw [most_recent_year_cell, most_recent_year, if_neg (by simpa using hne), hdt]
        show (if r.year = 0 then "N/A" else toString r.year) = toString r.year
        rw [if_neg (by omega)]
      · exact ⟨l₁, l₂, hdec, h₁, h₂⟩

/-- A normalized project carrying only an end date, for evaluation. -/
def projWithEnd (ed : Option String) : NormalizedProject :=
  { project_id := none, title := none, start_date := none, end_date := ed
    budget_start_date := none, budget_end_date := none
    project_start_date := none, project_end_date := none
    direct_costs := 0, indirect_costs := 0, award_amount := 0, total_costs := 0 }

/-- The spec's most-recent-year example person: end dates
`2019-01-01`, `2021-06-30T00:00:00`, and the unparseable `N/A`. -/
def endDateExampleProjects : List NormalizedProject :=
  [projWithEnd (some "2019-01-01"),
   projWithEnd (some "2021-06-30T00:00:00"),
   projWithEnd (some "N/A")]

/-- Witness for claim C3 at the spec's example person. -/
theorem most_recent_year_spec_witness :
    most_recent_year_cell endDateExampleProjects = "2021" := by
  have h := (most_recent_year_spec endDateExampleProjects).2.2
    { year := 2021, month := 6, day := 30, hour := 0, minute := 0, second := 0 } (by decide)
  exact h.1.trans (by decide)

/-! ### The currently-active funding metric (`create_summary_csv`, lines 163-195) -/

/-- The three accumulators of the currently-active scan. -/
structure CurrentTotals where
  current_direct : ℚ
  current_total : ℚ
  current_project_count : ℕ
  deriving DecidableEq

/-- One iteration of the currently-active loop: truthiness guard on both
date strings, two-format parse of each (a failure skips the project),
then the inclusive `[start, end]` containment check on calendar dates. -/
def activeStep (today : Date) (acc : CurrentTotals) (project : NormalizedProject) :
    CurrentTotals :=
  if pyTruthyStr project.start_date && pyTruthyStr project.end_date then
    match parseDateTwoFormats (project.start_date.getD "") with
    | none => acc
    | some project_start =>
      match parseDateTwoFormats (project.end_date.getD "") with
      | none => acc
      | some project_end =>
        if dateLe project_start.toDate today && dateLe today project_end.toDate then
          { current_direct := acc.current_direct + project.direct_costs
            current_total := acc.current_total + project.total_costs
            current_project_count := acc.current_project_count + 1 }
        else acc
  else acc

/-- The currently-active scan over a person's projects, with `today`
(the value of `datetime.now().date()`) as an explicit parameter. -/
def computeCurrent (today : Date) (projects : List NormalizedProject) : CurrentTotals :=
  projects.foldl (activeStep today)
    { current_direct := 0, current_total := 0, current_project_count := 0 }

/-- The currently-active predicate: both dates parse and today lies in
the inclusive range. -/
def isActive (today : Date) (p : NormalizedProject) : Bool :=
  (pyTruthyStr p.start_date && pyTruthyStr p.end_date) &&
  (match parseDateTwoFormats (p.start_date.getD ""),
      parseDateTwoFormats (p.end_date.getD "") with
    | some ds, some de => dateLe ds.toDate today && dateLe today de.toDate
    | _, _ => false)

lemma activeStep_eq (today : Date) (acc : CurrentTotals) (p : NormalizedProject) :
    activeStep today acc p =
      if isActive today p then
        { current_direct := acc.current_direct + p.direct_costs
          current_total := acc.current_total + p.total_costs
          current_project_count := acc.current_project_count + 1 }
      else acc := by
  cases hg : pyTruthyStr p.start_date && pyTruthyStr p.end_date with
  | false => simp [activeStep, isActive, hg]
  | true =>
    cases hs : parseDateTwoFormats (p.start_date.getD "") with
    | none => simp [activeStep, isActive, hg, hs]
    | some ds =>
      cases he : parseDateTwoFormats (p.end_date.getD "") with
      | none => simp [activeStep, isActive, hg, hs, he]
      | some de =>
        cases hr : dateLe ds.toDate today && dateLe today de.toDate with
        | false => simp [activeStep, isActive, hg, hs, he, hr]
        | true => simp [activeStep, isActive, hg, hs, he, hr]

lemma computeCurrent_foldl (today : Date) (ps : List NormalizedProject) :
    ∀ acc : CurrentTotals,
      ps.foldl (activeStep today) acc =
        { current_direct := acc.current_direct +
            ((ps.filter (isActive today)).map NormalizedProject.direct_costs).sum
          current_total := acc.current_total +
            ((ps.filter (isActive today)).map NormalizedProject.total_costs).sum
          current_project_count := acc.current_project_count +
            (ps.filter (isActive today)).length } := by
  induction ps with
  | nil =>
    intro acc
    obtain ⟨a, b, c⟩ := acc
    simp
  | cons p ps ih =>
    intro acc
    rw [List.foldl_cons, activeStep_eq]
    by_cases hA : isActive today p = true
    · rw [if_pos hA, ih]
      simp only [List.filter_cons, hA, if_true, List.map_cons, List.sum_cons,
        List.length_cons, CurrentTotals.mk.injEq]
      refine ⟨by ring, by ring, by omega⟩
    · rw [if_neg hA, ih]
      simp [List.filter_cons, Bool.of_not_eq_true hA]

lemma not_truthy_getD {o : Option String} (h : pyTruthyStr o = false) : o.getD "" = "" := by
  cases o with
  | none => rfl
  | some s =>
    simp only [pyTruthyStr, decide_eq_false_iff_not, ne_eq, not_not] at h
    simpa using h

/-- Claim C4: for any fixed value of today's date, the current
direct-cost sum, current total-cost sum and current project count are
accumulated over exactly the projects satisfying the active predicate,
and that predicate holds iff both date strings parse under the
two-format fallback and today lies within `[start, end]` inclusive (a
parse failure silently excludes the project). -/
theorem currently_active_spec (today : Date) (ps : List NormalizedProject) :
    (computeCurrent today ps).current_direct =
      ((ps.filter (isActive today)).map NormalizedProject.direct_costs).sum
    ∧ (computeCurrent today ps).current_total =
      ((ps.filter (isActive today)).map NormalizedProject.total_costs).sum
    ∧ (computeCurrent today ps).current_project_count =
      (ps.filter (isActive today)).length
    ∧ ∀ p : NormalizedProject, isActive today p = true ↔
        ∃ ds de : DateTime,
          parseDateTwoFormats (p.start_date.getD "") = some ds
          ∧ parseDateTwoFormats (p.end_date.getD "") = some de
          ∧ dateLe ds.toDate today = true ∧ dateLe today de.toDate = true := by
  refine ⟨?_, ?_, ?_, ?_⟩
  · rw [computeCurrent, computeCurrent_foldl]; simp
  · rw [computeCurrent, computeCurrent_foldl]; simp
  · rw [computeCurrent, computeCurrent_foldl]; simp
  · intro p
    rw [isActive]
    cases hts : pyTruthyStr p.start_date
    · have : parseDateTwoFormats (p.start_date.getD "") = none := by
        rw [not_truthy_getD hts]; rfl
      simp [this]
    · cases hte : pyTruthyStr p.end_date
      · have : parseDateTwoFormats (p.end_date.getD "") = none := by
          rw [not_truthy_getD hte]; rfl
        simp [this]
      · simp only [Bool.and_self, Bool.true_and]
        cases hs : parseDateTwoFormats (p.start_date.getD "")
        · simp [hs]
        · cases he : parseDateTwoFormats (p.end_date.getD "")
          · simp [hs, he]
          · simp [hs, he, Bool.and_eq_true]

/-- A normalized project with given dates and costs, for evaluation. -/
def projWithDates (sd ed : Option String) (direct tot : ℚ) : NormalizedProject :=
  { project_id := none, title := none, start_date := sd, end_date := ed
    budget_start_date := none, budget_end_date := none
    project_start_date := none, project_end_date := none
    direct_costs := direct, indirect_costs := 0, award_amount := 0, total_costs := tot }

/-- The spec's currently-active example: exactly one of two projects
contains the fixed today. -/
def activeExampleProjects : List NormalizedProject :=
  [projWithDates (some "2024-01-01") (some "2024-12-31T00:00:00") 100 150,
   projWithDates (some "2019-01-01") (some "2019-12-31") 7 9]

/-- The fixed value of today used in the claim C4 witness. -/
def exampleToday : Date := { year := 2024, month := 6, day := 15 }

/-- Witness for claim C4 at the example person and a fixed today. -/
theorem currently_active_spec_witness :
    (computeCurrent exampleToday activeExampleProjects).current_project_count = 1
    ∧ (computeCurrent exampleToday activeExampleProjects).current_direct = 100
    ∧ (computeCurrent exampleToday activeExampleProjects).current_total = 150 := by
  have h := currently_active_spec exampleToday activeExampleProjects
  have hf : List.filter (isActive exampleToday) activeExampleProjects =
      [projWithDates (some "2024-01-01") (some "2024-12-31T00:00:00") 100 150] := by decide
  refine ⟨h.2.2.1.trans ?_, h.1.trans ?_, h.2.1.trans ?_⟩
  · rw [hf]; rfl
  · rw [hf]; simp [projWithDates]
  · rw [hf]; simp [projWithDates]

/-! ### Input handling and output writing (`search_names_from_yaml`, `main`)

The file open and `yaml.safe_load` are abstracted into a load outcome;
everything after them is translated directly.  The `except` clauses
catch exactly `FileNotFoundError` and `yaml.YAMLError`; a document that
parses as valid YAML but is not a mapping (an empty file loads as
`None`, a top-level list as a `list`) makes `data.get('names', [])`
raise an uncaught `AttributeError`, modelled as an `Except.error`.
Printed diagnostics are collected as a message list (the surrounding
quote characters of the file-name message are elided). -/

/-- The per-person value stored in the results dictionary. -/
structure PersonData where
  total_projects : ℕ
  total_direct_costs : ℚ
  total_costs : ℚ
  projects : List NormalizedProject
  search_timestamp : String
  search_name_used : String
  organization_filter : Option String

/-- `results[name] = entry` on an insertion-ordered dictionary: an
existing key keeps its position and gets the new value. -/
def dictInsert (k : String) (v : PersonData) : List (String × PersonData) →
    List (String × PersonData)
  | [] => [(k, v)]
  | (k₁, v₁) :: rest => if k₁ = k then (k₁, v) :: rest else (k₁, v₁) :: dictInsert k v rest

/-- Outcome of `yaml.safe_load` on a readable file. -/
inductive YamlDoc where
  | isMapping (names : Option (List String))
  | notMapping

/-- Outcome of opening and parsing the YAML name-list file. -/
inductive YamlLoad where
  | fileNotFound
  | parseError
  | doc (d : YamlDoc)

/-- An uncaught Python exception escaping `search_names_from_yaml`. -/
inductive RunError where
  | attributeError
  deriving DecidableEq

/-- Results dictionary plus printed diagnostics. -/
structure SearchRun where
  results : List (String × PersonData)
  messages : List String

/-- `search_names_from_yaml`: load the name list (`load` abstracts the
file/YAML outcome), return `{}` with a diagnostic on the two caught
errors or an empty name list, otherwise search each cleaned name
(`search` abstracts `search_person` with the organization filter baked
in), process its funding data, accumulate the results dictionary, and
return it sorted by last name. -/
def search_names_from_yaml (yaml_file : String) (load : YamlLoad)
    (search : String → List RawProjectRecord) (extra_text : String) (now_iso : String) :
    Except RunError SearchRun :=
  match load with
  | .fileNotFound => .ok ⟨[], ["Error: YAML file " ++ yaml_file ++ " not found"]⟩
  | .parseError => .ok ⟨[], ["Error parsing YAML file"]⟩
  | .doc .notMapping => .error .attributeError
  | .doc (.isMapping names?) =>
    let names := names?.getD []
    if names = [] then .ok ⟨[], ["No names found in YAML file"]⟩
    else
      let atSuffix := if extra_text = "" then "" else " at " ++ extra_text
      let r := names.foldl
        (fun (acc : List (String × PersonData) × List String) (name : String) =>
          let cn := clean_name name
          let projects := search cn
          let processed_data := process_funding_data projects
          let entry : PersonData :=
            { total_projects := processed_data.project_count
              total_direct_costs := processed_data.total_direct_costs
              total_costs := processed_data.total_costs
              projects := processed_data.projects
              search_timestamp := now_iso
              search_name_used := cn
              organization_filter := if extra_text = "" then none else some extra_text }
          (dictInsert name entry acc.1,
           acc.2 ++ ["Searching for: " ++ cn ++ atSuffix,
             "Found " ++ toString projects.length ++ " projects for " ++ name ++ atSuffix]))
        ([], [])
      .ok ⟨sortResults r.1, r.2⟩

/-- Whether the first list is an initial segment of the second. -/
def listStartsWith : List Char → List Char → Bool
  | [], _ => true
  | _ :: _, [] => false
  | p :: ps, c :: cs => p = c && listStartsWith ps cs

/-- Python `s.replace(pat, rep)` on character lists: replace every
non-overlapping occurrence, left to right. -/
def pyReplaceAux (pat rep : List Char) : List Char → List Char
  | [] => []
  | c :: rest =>
    if _h : pat ≠ [] ∧ listStartsWith pat (c :: rest) then
      rep ++ pyReplaceAux pat rep (rest.drop (pat.length - 1))
    else c :: pyReplaceAux pat rep rest
termination_by l => l.length
decreasing_by
  · simp only [List.length_drop, List.length_cons]
    omega
  · simp [List.length_cons]

/-- Python `s.replace(pat, rep)` on strings. -/
def pyReplace (s pat rep : String) : String :=
  String.mk (pyReplaceAux pat.data rep.data s.data)

/-- The files `main` writes, in order: nothing when the results mapping
is falsy (empty), else the JSON results file and the two summary
files derived from its name. -/
def main_output_files (output_file : String) (results : List (String × PersonData)) :
    List String :=
  if results.isEmpty then []
  else
    [output_file,
     pyReplace output_file ".json" "_summary.csv",
     pyReplace output_file ".json" "_summary.xlsx"]

/-- Counterexample to claim C9 as stated: a file whose content is valid
YAML but not a mapping (e.g. an empty file, which loads as `None`) makes
`data.get('names', [])` raise an uncaught `AttributeError` instead of
producing an empty result mapping. -/
theorem yaml_non_mapping_crashes :
    search_names_from_yaml "names.yaml" (.doc .notMapping) (fun _ => []) "" "" =
      .error .attributeError := rfl

/-- Claim C9, amended: a missing file or a YAML parse error yields an
empty results mapping together with a diagnostic message (valid
non-mapping YAML instead raises, see the counterexample); an absent,
null or empty name list yields an empty mapping with a diagnostic; and
`main` writes no output files when the results mapping is empty. -/
theorem input_errors_graceful (yaml_file : String)
    (search : String → List RawProjectRecord) (extra_text now_iso : String) :
    search_names_from_yaml yaml_file .fileNotFound search extra_text now_iso =
      .ok ⟨[], ["Error: YAML file " ++ yaml_file ++ " not found"]⟩
    ∧ search_names_from_yaml yaml_file .parseError search extra_text now_iso =
      .ok ⟨[], ["Error parsing YAML file"]⟩
    ∧ search_names_from_yaml yaml_file (.doc (.isMapping none)) search extra_text now_iso =
      .ok ⟨[], ["No names found in YAML file"]⟩
    ∧ search_names_from_yaml yaml_file (.doc (.isMapping (some []))) search extra_text now_iso =
      .ok ⟨[], ["No names found in YAML file"]⟩
    ∧ (∀ output_file : String, main_output_files output_file [] = []) :=
  ⟨rfl, rfl, rfl, rfl, fun _ => rfl⟩
